import Mathlib

/-
Verification of the editor-state synchronization core of a note-taking UI
(`note-content-editor.tsx` and the note-info panel's counting helpers).

Strings are modelled as `List Char` (UTF-16 strings as `List Nat` of code
units where surrogate structure matters).  The external text surface's
document addressing (1-based lines and columns, validated/clamped
positions, offset conversions) is modelled explicitly; fallible paths are
modelled with `Option` and an explicit outcome type.
-/

namespace Simplenote

/-- Selection direction as stored by the application (`'LTR' | 'RTL'`). -/
inductive Dir
  | ltr
  | rtl
deriving DecidableEq

/-- Rendering mode of the local editor state (`'fast' | 'full'`). -/
inductive EditorMode
  | fast
  | full
deriving DecidableEq

/-- A 1-based line/column position in the text surface's document model. -/
structure TextPos where
  lineNumber : Nat
  column : Nat
deriving DecidableEq

/-- Number of lines of a document: one more than the number of newline
characters, so the empty document has a single empty line. -/
def lineCount : List Char → Nat
  | [] => 1
  | c :: rest => (if c = '\n' then 1 else 0) + lineCount rest

/-- Content of the 1-based line `n` of a document (without its terminator).
Out-of-range lines give the empty line. -/
def getLineContent : List Char → Nat → List Char
  | [], _ => []
  | c :: rest, n =>
    if c = '\n' then
      if n ≤ 1 then [] else getLineContent rest (n - 1)
    else
      if n ≤ 1 then c :: getLineContent rest n else getLineContent rest n

/-- Character offset of the start of the 1-based line `n`; for `n` beyond the
last line this saturates at the document length. -/
def lineStartOffset : List Char → Nat → Nat
  | _, 0 => 0
  | _, 1 => 0
  | [], _ + 2 => 0
  | c :: rest, n + 2 =>
    1 + (if c = '\n' then lineStartOffset rest (n + 1) else lineStartOffset rest (n + 2))

/-- The exclusive upper bound for a valid column on line `line`. -/
def maxColumn (s : List Char) (line : Nat) : Nat :=
  (getLineContent s line).length + 1

/-- Position validation of the text surface: the line is clamped into
`[1, lineCount]`; a line overflow yields the end of the last line, otherwise
the column is clamped into `[1, maxColumn]`. -/
def validatePosition (s : List Char) (line col : Nat) : TextPos :=
  if line < 1 then ⟨1, 1⟩
  else if lineCount s < line then ⟨lineCount s, maxColumn s (lineCount s)⟩
  else ⟨line, max 1 (min col (maxColumn s line))⟩

/-- Offset of a (validated) line/column position. -/
def getOffsetAt (s : List Char) (line col : Nat) : Nat :=
  let p := validatePosition s line col
  lineStartOffset s p.lineNumber + (p.column - 1)

/-- Walk `k` characters into the document, tracking the line/column position
reached. -/
def walkPos : List Char → Nat → TextPos
  | _, 0 => ⟨1, 1⟩
  | [], _ + 1 => ⟨1, 1⟩
  | c :: rest, k + 1 =>
    let p := walkPos rest k
    if c = '\n' then ⟨p.lineNumber + 1, p.column⟩
    else if p.lineNumber = 1 then ⟨1, p.column + 1⟩ else p

/-- Offset-to-position conversion of the text surface: the offset is first
clamped into `[0, length]`, then resolved to a line/column position. -/
def getPositionAt (s : List Char) (offset : Nat) : TextPos :=
  walkPos s (min offset s.length)

/-- Modelled from the spec: the Checkbox Codec's decode direction
(`withCheckboxCharacters` from `src/utils/task-transform`, whose source is
not part of this excerpt).  Each external checkbox syntax token is replaced
by the matching private-use sentinel, all other characters are preserved. -/
def withCheckboxCharacters : List Char → List Char
  | '[' :: ' ' :: ']' :: rest => '\uE000' :: withCheckboxCharacters rest
  | '[' :: 'x' :: ']' :: rest => '\uE001' :: withCheckboxCharacters rest
  | c :: rest => c :: withCheckboxCharacters rest
  | [] => []

/-- Modelled from the spec: the Checkbox Codec's encode direction
(`withCheckboxSyntax` from `src/utils/task-transform`, whose source is not
part of this excerpt).  Each private-use sentinel is replaced by the external
checkbox syntax token, all other characters are preserved. -/
def withCheckboxSyntax : List Char → List Char
  | '\uE000' :: rest => '[' :: ' ' :: ']' :: withCheckboxSyntax rest
  | '\uE001' :: rest => '[' :: 'x' :: ']' :: withCheckboxSyntax rest
  | c :: rest => c :: withCheckboxSyntax rest
  | [] => []

/-- The whitespace class of the host language's `\s` pattern and `trim`. -/
def jsWhitespace (c : Char) : Bool :=
  c == ' ' || c == '\t' || c == '\n' || c == '\u000B' || c == '\u000C' ||
  c == '\r' || c == '\u00A0' || c == '\u1680' ||
  (0x2000 ≤ c.toNat && c.toNat ≤ 0x200A) ||
  c == '\u2028' || c == '\u2029' || c == '\u202F' || c == '\u205F' ||
  c == '\u3000' || c == '\uFEFF'

/-- The bullet alternatives of the autolist pattern `[-+*\u2022\uE000\uE001]`. -/
def isListBullet (c : Char) : Bool :=
  c == '-' || c == '+' || c == '*' || c == '\u2022' || c == '\uE000' || c == '\uE001'

/-- Anchored match of the autolist pattern, whitespace then a bullet then at
least one whitespace character, returning the full matched text. -/
def listBulletMatch (line : List Char) : Option (List Char) :=
  let ws1 := line.takeWhile jsWhitespace
  match line.drop ws1.length with
  | [] => none
  | b :: rest =>
    if isListBullet b then
      let ws2 := rest.takeWhile jsWhitespace
      if ws2.length = 0 then none else some (ws1 ++ b :: ws2)
    else none

/-- Range of one edit operation of a content-change event. -/
structure EditRange where
  startLineNumber : Nat
  startColumn : Nat
  endLineNumber : Nat
  endColumn : Nat
deriving DecidableEq

/-- One edit operation of a content-change event. -/
structure EditChange where
  text : List Char
  range : EditRange
deriving DecidableEq

/-- A content-change event of the text surface. -/
structure ChangeEvent where
  changes : List EditChange
  isRedoing : Bool
  isUndoing : Bool
deriving DecidableEq

/-- The predicate of the autolist scan over edit operations:
`text[0] === '\n' && text.trim() === ''`. -/
def bareNewlineText (text : List Char) : Bool :=
  text.head? == some '\n' && text.all jsWhitespace

/-- The `autolist` closure of `updateNote`: on a bare newline keystroke below
a list-marker line whose new line is blank, produce the continued content and
the deferred cursor position; in every other case produce nothing. -/
def autolist (value : List Char) (event : ChangeEvent) : Option (List Char × TextPos) :=
  if event.isRedoing || event.isUndoing then none
  else
    match event.changes.find? (fun c => bareNewlineText c.text) with
    | none => none
    | some change =>
      let lineNumber := change.range.startLineNumber
      if lineNumber = 0 ∨ lineNumber ≠ change.range.endLineNumber then none
      else
        match listBulletMatch (getLineContent value lineNumber) with
        | none => none
        | some bullet =>
          let thisLine := getLineContent value (lineNumber + 1)
          if !thisLine.all jsWhitespace then none
          else
            let lineStart := getOffsetAt value (lineNumber + 1) 0
            let nextStart := getOffsetAt value (lineNumber + 2) 0
            some (value.take lineStart ++ bullet ++ '\n' :: value.drop nextStart,
                  ⟨lineNumber + 1, bullet.length + 1⟩)

/-- What the change handler produces: the content dispatched to the external
edit-request dispatcher and the cursor placement deferred to the next
microtask, when one is scheduled. -/
structure UpdateOutcome where
  dispatched : List Char
  deferredCursor : Option TextPos
deriving DecidableEq

/-- The `updateNote` change handler (on the path where the surface handle is
present, which is the only way the surface invokes it): the autolist result,
or the raw value when the autolist result is absent or empty, re-encoded via
the Checkbox Codec, is dispatched. -/
def updateNote (value : List Char) (event : ChangeEvent) : UpdateOutcome :=
  match autolist value event with
  | some (c, pos) =>
    if c = [] then ⟨withCheckboxSyntax value, some pos⟩
    else ⟨withCheckboxSyntax c, some pos⟩
  | none => ⟨withCheckboxSyntax value, none⟩

/-- The props the component reads for mode selection: the open note's id and
raw content, and the persisted selection offsets for that note. -/
structure EditorProps where
  noteId : Nat
  noteContent : List Char
  selectionStart : Nat
  selectionEnd : Nat
deriving DecidableEq

/-- The component's local state relevant to mode selection. -/
structure EditorLocalState where
  content : List Char
  mode : EditorMode
  noteId : Option Nat
deriving DecidableEq

/-- The three possible results of `getDerivedStateFromProps`: the note-switch
reset, a content-only refresh, or no update (`null`). -/
inductive DerivedUpdate
  | switchNote (content : List Char) (mode : EditorMode) (noteId : Nat)
  | contentOnly (content : List Char)
  | noUpdate
deriving DecidableEq

/-- `getDerivedStateFromProps`: on a note switch, oversized content (length
strictly above 5000) enters fast mode with the raw content truncated to
`selectionEnd + 5000` characters, otherwise full mode with decoded content;
without a note switch, changed content is re-decoded; otherwise no update. -/
def getDerivedStateFromProps (props : EditorProps) (state : EditorLocalState) : DerivedUpdate :=
  let content := props.noteContent
  let goFast := 5000 < content.length
  if state.noteId ≠ some props.noteId then
    .switchNote
      (if goFast then content.take (props.selectionEnd + 5000) else withCheckboxCharacters content)
      (if goFast then .fast else .full)
      props.noteId
  else if content ≠ state.content then .contentOnly (withCheckboxCharacters content)
  else .noUpdate

/-- The boot delay (milliseconds) before the promotion timer fires. -/
def SPEED_DELAY : Nat := 120

/-- The pending boot timer: the note id captured when it was armed, and the
armed delay. -/
structure BootTimer where
  capturedNoteId : Nat
  delay : Nat
deriving DecidableEq

/-- The component's full observable state for the mount/switch/timer
lifecycle: current props, local state, the pending timer and mount flag. -/
structure ComponentState where
  propsNoteId : Nat
  propsContent : List Char
  propsSelectionEnd : Nat
  content : List Char
  mode : EditorMode
  stateNoteId : Option Nat
  bootTimer : Option BootTimer
  mounted : Bool
deriving DecidableEq

/-- Apply `getDerivedStateFromProps` to the component's state, as the
framework does before each render. -/
def applyDerived (s : ComponentState) : ComponentState :=
  match getDerivedStateFromProps
      ⟨s.propsNoteId, s.propsContent, 0, s.propsSelectionEnd⟩
      ⟨s.content, s.mode, s.stateNoteId⟩ with
  | .switchNote c m id => { s with content := c, mode := m, stateNoteId := some id }
  | .contentOnly c => { s with content := c }
  | .noUpdate => s

/-- The lifecycle events of the component relevant to the boot timer. -/
inductive ComponentEvent
  | mount
  | switchNote (id : Nat) (content : List Char) (selEnd : Nat)
  | timerFire
  | unmount
deriving DecidableEq

/-- One lifecycle step.  `componentDidMount` arms the boot timer capturing
the note id open at mount; a note switch updates props and reruns the derived
state, leaving the timer alone; a firing timer promotes to full mode with the
decoded current content only when the captured note id still matches the open
note; `componentWillUnmount` clears the timer. -/
def step (s : ComponentState) (e : ComponentEvent) : ComponentState :=
  match e with
  | .mount => { s with mounted := true, bootTimer := some ⟨s.propsNoteId, SPEED_DELAY⟩ }
  | .switchNote id c selEnd =>
    applyDerived { s with propsNoteId := id, propsContent := c, propsSelectionEnd := selEnd }
  | .timerFire =>
    match s.bootTimer with
    | none => s
    | some t =>
      if t.capturedNoteId = s.propsNoteId then
        { s with bootTimer := none, mode := .full,
                 content := withCheckboxCharacters s.propsContent }
      else { s with bootTimer := none }
  | .unmount => { s with bootTimer := none, mounted := false }

/-- The initial state of a freshly constructed component, after the first
derived-state pass over the initial props. -/
def initState (id : Nat) (content : List Char) (selEnd : Nat) : ComponentState :=
  applyDerived
    { propsNoteId := id, propsContent := content, propsSelectionEnd := selEnd,
      content := [], mode := .fast, stateNoteId := none, bootTimer := none,
      mounted := false }

/-- The selection the component hands to the surface: start and end positions
(absent coordinates when the model could not resolve them) and a direction. -/
structure AppliedSelection where
  selStart : Option TextPos
  selEnd : Option TextPos
  dir : Dir
deriving DecidableEq

/-- `componentDidUpdate`: when the surface handle exists, the editor is in
full mode and the persisted selection changed, convert the new offsets to
positions on the current model and apply them; otherwise do nothing. -/
def componentDidUpdate (hasEditor : Bool) (model : Option (List Char)) (mode : EditorMode)
    (prevSel thisSel : Nat × Nat × Dir) : Option AppliedSelection :=
  if hasEditor = true ∧ mode = .full ∧ prevSel ≠ thisSel then
    some ⟨model.map fun m => getPositionAt m thisSel.1,
          model.map fun m => getPositionAt m thisSel.2.1,
          thisSel.2.2⟩
  else none

/-- Outcome of the mount-time selection application inside `editorReady`:
either the selection is applied and the start line revealed, or the unguarded
`start.lineNumber` access threw because the conversion resolved nothing. -/
inductive MountSelectionOutcome
  | threwTypeError
  | applied (sel : AppliedSelection) (revealedLine : Nat)
deriving DecidableEq

/-- The mount-time selection application of `editorReady`: positions are
computed through the optional model, the selection is applied, and then the
start position's `lineNumber` is dereferenced without a guard to reveal the
line, which throws when the conversion produced nothing. -/
def editorReadySelect (model : Option (List Char)) (startOff endOff : Nat) (d : Dir) :
    MountSelectionOutcome :=
  let s := model.map fun m => getPositionAt m startOff
  let e := model.map fun m => getPositionAt m endOff
  match s with
  | some sp => .applied ⟨s, e, d⟩ sp.lineNumber
  | none => .threwTypeError

/-- The reason codes of a cursor-selection change event. -/
inductive CursorChangeReason
  | notSet
  | contentFlush
  | recoverFromMarkers
  | explicitChange
  | paste
  | undo
  | redo
deriving DecidableEq

/-- Document order on positions. -/
def posBefore (a b : TextPos) : Bool :=
  a.lineNumber < b.lineNumber || (a.lineNumber == b.lineNumber && a.column ≤ b.column)

/-- A live selection of the surface: the anchor (where the selection started)
and the active end (where the cursor is). -/
structure LiveSelection where
  anchor : TextPos
  active : TextPos
deriving DecidableEq

/-- The selection's start position: the earlier of anchor and active end. -/
def selStartPos (sel : LiveSelection) : TextPos :=
  if posBefore sel.anchor sel.active then sel.anchor else sel.active

/-- The selection's end position: the later of anchor and active end. -/
def selEndPos (sel : LiveSelection) : TextPos :=
  if posBefore sel.anchor sel.active then sel.active else sel.anchor

/-- The direction the surface reports: LTR when the anchor is the selection's
start position, RTL otherwise. -/
def selDirection (sel : LiveSelection) : Dir :=
  if sel.anchor = selStartPos sel then .ltr else .rtl

/-- The persist-selection action `STORE_EDITOR_SELECTION`. -/
structure StoreSelectionAction where
  noteId : Nat
  selStart : Nat
  selEnd : Nat
  dir : Dir
deriving DecidableEq

/-- The `onDidChangeCursorSelection` handler: undo/redo reasons dispatch
nothing; every other reason converts the live selection back to offsets and
dispatches the persist-selection action. -/
def onDidChangeCursorSelection (text : List Char) (noteId : Nat)
    (reason : CursorChangeReason) (sel : LiveSelection) : Option StoreSelectionAction :=
  if reason = .undo ∨ reason = .redo then none
  else
    some ⟨noteId,
      getOffsetAt text (selStartPos sel).lineNumber (selStartPos sel).column,
      getOffsetAt text (selEndPos sel).lineNumber (selEndPos sel).column,
      selDirection sel⟩

/-- The edit-note request `editNote(noteId, { content })`. -/
structure EditNoteAction where
  noteId : Nat
  content : List Char
deriving DecidableEq

/-- The `onMouseDown` handler: a missing target range or model short-circuits;
otherwise the resolved document offset is read in the displayed content, an
unchecked sentinel is flipped to checked (and conversely) and the re-encoded
content dispatched; any other character dispatches nothing. -/
def onMouseDown (stateContent : List Char) (noteId : Nat)
    (range : Option EditRange) (model : Option (List Char)) : Option EditNoteAction :=
  match range with
  | none => none
  | some r =>
    match model with
    | none => none
    | some m =>
      let offset := getOffsetAt m r.startLineNumber r.startColumn
      if stateContent[offset]? = some '\uE000' then
        some ⟨noteId, withCheckboxSyntax
          (stateContent.take offset ++ '\uE001' :: stateContent.drop (offset + 1))⟩
      else if stateContent[offset]? = some '\uE001' then
        some ⟨noteId, withCheckboxSyntax
          (stateContent.take offset ++ '\uE000' :: stateContent.drop (offset + 1))⟩
      else none

/-- The key identity of a key-down event, reduced to what `handleKeys`
distinguishes. -/
inductive KeyCode
  | keyC
  | other
deriving DecidableEq

/-- A key-down event. -/
structure KeyEvent where
  code : KeyCode
  ctrlKey : Bool
  metaKey : Bool
  shiftKey : Bool
deriving DecidableEq

/-- What `handleKeys` did with a key-down event. -/
structure KeyOutcome where
  insertTaskDispatched : Bool
  propagationStopped : Bool
  defaultPrevented : Bool
deriving DecidableEq

/-- The `handleKeys` listener: with shortcuts disabled it returns untouched;
the Ctrl/Cmd+Shift+C chord dispatches insert-task and suppresses propagation
and default handling; everything else passes through. -/
def handleKeys (keyboardShortcuts : Bool) (e : KeyEvent) : KeyOutcome :=
  if keyboardShortcuts = false then ⟨false, false, false⟩
  else if ((e.ctrlKey || e.metaKey) && e.shiftKey) = true ∧ e.code = .keyC then
    ⟨true, true, true⟩
  else ⟨false, false, false⟩

/-- Whether a UTF-16 code unit is a high surrogate (`[\uD800-\uDBFF]`). -/
def isHighSurrogate (u : Nat) : Bool :=
  0xD800 ≤ u && u ≤ 0xDBFF

/-- Whether a UTF-16 code unit is a low surrogate (`[\uDC00-\uDFFF]`). -/
def isLowSurrogate (u : Nat) : Bool :=
  0xDC00 ≤ u && u ≤ 0xDFFF

/-- Left-to-right global replacement of each high-low surrogate pair by the
single code unit of `'_'`, as the `surrogatePairs` regex replacement does. -/
def replaceSurrogatePairs : List Nat → List Nat
  | [] => []
  | [u] => [u]
  | u :: v :: rest =>
    if isHighSurrogate u && isLowSurrogate v then 95 :: replaceSurrogatePairs rest
    else u :: replaceSurrogatePairs (v :: rest)

/-- `characterCount` of the note-info panel: missing content counts as the
empty string; each surrogate pair is collapsed before taking the length. -/
def characterCount (content : Option (List Nat)) : Nat :=
  (replaceSurrogatePairs (content.getD [])).length

/-- The number of positions at which a high surrogate is immediately followed
by a low surrogate.  This is the specification-side count of surrogate pairs. -/
def surrogatePairCount : List Nat → Nat
  | u :: v :: rest =>
    (if isHighSurrogate u && isLowSurrogate v then 1 else 0) + surrogatePairCount (v :: rest)
  | _ => 0

/-- A low surrogate is never a high surrogate: the two ranges are disjoint. -/
lemma isHighSurrogate_eq_false {u : Nat} (h : isLowSurrogate u = true) :
    isHighSurrogate u = false := by
  simp only [isLowSurrogate, Bool.and_eq_true, decide_eq_true_eq] at h
  simp only [isHighSurrogate, Bool.and_eq_false_iff, decide_eq_false_iff_not]
  omega

/-- A leading low surrogate can never start a pair. -/
lemma surrogatePairCount_cons_of_low (v : Nat) (rest : List Nat)
    (h : isLowSurrogate v = true) :
    surrogatePairCount (v :: rest) = surrogatePairCount rest := by
  cases rest with
  | nil => rfl
  | cons w r =>
    simp [surrogatePairCount, isHighSurrogate_eq_false h]

/-- The collapsed length plus the number of surrogate pairs recovers the
code-unit length. -/
lemma replaceSurrogatePairs_length (l : List Nat) :
    (replaceSurrogatePairs l).length + surrogatePairCount l = l.length := by
  induction l using replaceSurrogatePairs.induct with
  | case1 => rfl
  | case2 u => rfl
  | case3 u v rest hpair ih =>
    have hlow : isLowSurrogate v = true := by
      rcases Bool.and_eq_true_iff.mp hpair with ⟨_, h⟩
      exact h
    simp only [replaceSurrogatePairs, hpair, if_true, List.length_cons]
    simp only [surrogatePairCount, hpair, if_true]
    rw [surrogatePairCount_cons_of_low v rest hlow]
    omega
  | case4 u v rest hpair ih =>
    simp only [replaceSurrogatePairs, hpair, Bool.false_eq_true, if_false,
      List.length_cons]
    simp only [surrogatePairCount, hpair, Bool.false_eq_true, if_false]
    simp only [List.length_cons] at ih ⊢
    omega

/-- Claim C10: `characterCount` equals the number of UTF-16 code units with
each surrogate pair (a high surrogate immediately followed by a low
surrogate) counted once, and it is 0 for missing or empty content. -/
theorem claim_C10 :
    (∀ l : List Nat, characterCount (some l) = l.length - surrogatePairCount l) ∧
    characterCount none = 0 ∧ characterCount (some []) = 0 := by
  refine ⟨?_, rfl, rfl⟩
  intro l
  have h := replaceSurrogatePairs_length l
  unfold characterCount
  simp only [Option.getD_some]
  omega

/-- Claim C2: on every note-switch event, content of length at most 5000
enters full mode immediately with the fully decoded content, while content
longer than 5000 characters enters fast mode displaying the first
`selectionEnd + 5000` characters of the raw content. -/
theorem claim_C2 (props : EditorProps) (state : EditorLocalState)
    (hswitch : state.noteId ≠ some props.noteId) :
    (props.noteContent.length ≤ 5000 →
      getDerivedStateFromProps props state =
        .switchNote (withCheckboxCharacters props.noteContent) .full props.noteId) ∧
    (5000 < props.noteContent.length →
      getDerivedStateFromProps props state =
        .switchNote (props.noteContent.take (props.selectionEnd + 5000)) .fast
          props.noteId) := by
  constructor
  · intro hle
    have hnot : ¬ (5000 < props.noteContent.length) := by omega
    simp [getDerivedStateFromProps, hswitch, hnot]
  · intro hgt
    simp [getDerivedStateFromProps, hswitch, hgt]

/-- Witness for C2 at a concrete small note and note switch. -/
theorem claim_C2_witness :
    getDerivedStateFromProps ⟨1, ['h', 'i'], 0, 0⟩ ⟨[], .fast, none⟩ =
      .switchNote ['h', 'i'] .full 1 := by
  have h := (claim_C2 ⟨1, ['h', 'i'], 0, 0⟩ ⟨[], .fast, none⟩ (by decide)).1 (by decide)
  exact h.trans (by decide)

/-- Claim C5 (code bug): when the mount-time offset-to-position conversion
cannot resolve because the model is absent, the selection application is not
a silent no-op — the unguarded `lineNumber` access throws — while a present
model applies the selection and reveals the start line. -/
theorem claim_C5_code_bug :
    editorReadySelect none 0 0 .ltr = .threwTypeError ∧
    editorReadySelect (some ['a']) 0 0 .ltr =
      .applied ⟨some ⟨1, 1⟩, some ⟨1, 1⟩, .ltr⟩ 1 := by
  exact ⟨rfl, rfl⟩

/-- Claim C8: with shortcuts enabled, the Ctrl/Cmd+Shift+C chord dispatches
insert-task and suppresses propagation and default handling; a disabled flag
or any other key combination dispatches nothing and leaves the event
untouched. -/
theorem claim_C8 (keyboardShortcuts : Bool) (e : KeyEvent) :
    (keyboardShortcuts = true → ((e.ctrlKey || e.metaKey) && e.shiftKey) = true →
      e.code = .keyC → handleKeys keyboardShortcuts e = ⟨true, true, true⟩) ∧
    (keyboardShortcuts = false →
      handleKeys keyboardShortcuts e = ⟨false, false, false⟩) ∧
    (((e.ctrlKey || e.metaKey) && e.shiftKey) = false ∨ e.code ≠ .keyC →
      handleKeys keyboardShortcuts e = ⟨false, false, false⟩) := by
  refine ⟨?_, ?_, ?_⟩
  · intro hs hchord hcode
    simp [handleKeys, hs, hchord, hcode]
  · intro hs
    simp [handleKeys, hs]
  · intro h
    by_cases hs : keyboardShortcuts = false
    · simp [handleKeys, hs]
    · rcases h with h | h
      · simp [handleKeys, hs, h]
      · simp [handleKeys, hs, h]

/-- Witness for C8 at the concrete enabled chord. -/
theorem claim_C8_witness :
    handleKeys true ⟨.keyC, true, false, true⟩ = ⟨true, true, true⟩ := by
  exact (claim_C8 true ⟨.keyC, true, false, true⟩).1 rfl (by decide) rfl

/-- A derived-state pass never touches the pending boot timer. -/
lemma applyDerived_bootTimer (s : ComponentState) :
    (applyDerived s).bootTimer = s.bootTimer := by
  unfold applyDerived
  cases h : getDerivedStateFromProps ⟨s.propsNoteId, s.propsContent, 0, s.propsSelectionEnd⟩
      ⟨s.content, s.mode, s.stateNoteId⟩ <;> simp [h]

/-- Claim C3 (counterexample): mount with a small note, then switch to an
oversized note.  The switch arms no promotion timer (the timer armed at mount
still captures the first note) and does not cancel the mount timer; when that
timer fires, the oversized note is still open and yet no promotion to full
mode happens, because the captured note id differs. -/
theorem claim_C3_counterexample :
    (step (step (initState 1 ['h', 'i'] 0) .mount)
        (.switchNote 2 (List.replicate 5001 'a') 0)).mode = .fast ∧
    (step (step (initState 1 ['h', 'i'] 0) .mount)
        (.switchNote 2 (List.replicate 5001 'a') 0)).bootTimer = some ⟨1, 120⟩ ∧
    5000 < (List.replicate 5001 'a').length ∧
    (step (step (step (initState 1 ['h', 'i'] 0) .mount)
        (.switchNote 2 (List.replicate 5001 'a') 0)) .timerFire).propsNoteId = 2 ∧
    (step (step (step (initState 1 ['h', 'i'] 0) .mount)
        (.switchNote 2 (List.replicate 5001 'a') 0)) .timerFire).mode = .fast ∧
    (step (step (step (initState 1 ['h', 'i'] 0) .mount)
        (.switchNote 2 (List.replicate 5001 'a') 0)) .timerFire).bootTimer = none := by
  set R := List.replicate 5001 'a' with hRdef
  have hR : 5000 < R.length := by
    rw [hRdef]
    simp only [List.length_replicate]
    omega
  have h0 : initState 1 ['h', 'i'] 0 =
      ⟨1, ['h', 'i'], 0, ['h', 'i'], .full, some 1, none, false⟩ := by decide
  have h1 : step (initState 1 ['h', 'i'] 0) .mount =
      ⟨1, ['h', 'i'], 0, ['h', 'i'], .full, some 1, some ⟨1, 120⟩, true⟩ := by
    rw [h0]; decide
  have h2 : step (⟨1, ['h', 'i'], 0, ['h', 'i'], .full, some 1, some ⟨1, 120⟩, true⟩ :
        ComponentState) (.switchNote 2 R 0) =
      ⟨2, R, 0, R.take 5000, .fast, some 2, some ⟨1, 120⟩, true⟩ := by
    simp [step, applyDerived, getDerivedStateFromProps, hR]
  have h3 : step (⟨2, R, 0, R.take 5000, .fast, some 2, some ⟨1, 120⟩, true⟩ :
        ComponentState) .timerFire =
      ⟨2, R, 0, R.take 5000, .fast, some 2, none, true⟩ := by
    simp [step]
  rw [h1, h2, h3]
  exact ⟨rfl, rfl, hR, rfl, rfl, rfl⟩

/-- Claim C3 (amended): a single promotion timer is armed on mount capturing
the note open at mount with the 120ms delay; when it fires with the captured
note still open, the editor is promoted to full mode with the complete
decoded content; when the open note changed, the firing callback only
discards the timer; the timer is cancelled on unmount; a note switch neither
arms nor cancels the timer. -/
theorem claim_C3_amended (s : ComponentState) :
    ((step s .mount).bootTimer = some ⟨s.propsNoteId, 120⟩) ∧
    (∀ t, s.bootTimer = some t → t.capturedNoteId = s.propsNoteId →
      step s .timerFire =
        { s with bootTimer := none, mode := .full,
                 content := withCheckboxCharacters s.propsContent }) ∧
    (∀ t, s.bootTimer = some t → t.capturedNoteId ≠ s.propsNoteId →
      step s .timerFire = { s with bootTimer := none }) ∧
    ((step s .unmount).bootTimer = none) ∧
    (∀ id c selEnd, (step s (.switchNote id c selEnd)).bootTimer = s.bootTimer) := by
  refine ⟨rfl, ?_, ?_, rfl, ?_⟩
  · intro t ht hid
    simp [step, ht, hid]
  · intro t ht hid
    simp [step, ht, hid]
  · intro id c selEnd
    simp only [step]
    rw [applyDerived_bootTimer]

/-- Witness for C3: a firing timer whose captured note is still open promotes
to full mode with the decoded content. -/
theorem claim_C3_witness :
    step ⟨1, ['h', 'i'], 0, ['h', 'i'], .fast, some 1, some ⟨1, 120⟩, true⟩ .timerFire =
      ⟨1, ['h', 'i'], 0, ['h', 'i'], .full, some 1, none, true⟩ := by
  have h := (claim_C3_amended
      ⟨1, ['h', 'i'], 0, ['h', 'i'], .fast, some 1, some ⟨1, 120⟩, true⟩).2.1
      ⟨1, 120⟩ rfl rfl
  exact h.trans (by decide)

/-- Claim C6: undo- and redo-triggered selection changes dispatch nothing;
every other selection change dispatches the persist-selection action carrying
the note id, the selection's start and end offsets and its direction, and
that direction is RTL exactly when the anchor sits after the active end. -/
theorem claim_C6 (text : List Char) (noteId : Nat) (reason : CursorChangeReason)
    (sel : LiveSelection) :
    ((reason = .undo ∨ reason = .redo) →
      onDidChangeCursorSelection text noteId reason sel = none) ∧
    (reason ≠ .undo → reason ≠ .redo →
      onDidChangeCursorSelection text noteId reason sel =
        some ⟨noteId,
          getOffsetAt text (selStartPos sel).lineNumber (selStartPos sel).column,
          getOffsetAt text (selEndPos sel).lineNumber (selEndPos sel).column,
          selDirection sel⟩) ∧
    (selDirection sel = .rtl ↔ posBefore sel.anchor sel.active = false) := by
  refine ⟨?_, ?_, ?_⟩
  · intro h
    simp [onDidChangeCursorSelection, h]
  · intro h1 h2
    simp [onDidChangeCursorSelection, h1, h2]
  · unfold selDirection selStartPos
    by_cases hb : posBefore sel.anchor sel.active
    · simp [hb]
    · have hne : sel.anchor ≠ sel.active := by
        intro he
        apply hb
        rw [he]
        unfold posBefore
        simp
      simp [hb, hne]

/-- Witness for C6: a backwards drag dispatches the RTL persistence action. -/
theorem claim_C6_witness :
    onDidChangeCursorSelection ['a', 'b'] 7 .explicitChange ⟨⟨1, 2⟩, ⟨1, 1⟩⟩ =
      some ⟨7, 0, 1, .rtl⟩ := by
  have h := (claim_C6 ['a', 'b'] 7 .explicitChange ⟨⟨1, 2⟩, ⟨1, 1⟩⟩).2.1
      (by decide) (by decide)
  exact h.trans (by decide)

/-- Claim C7: a mouse-down resolving to an unchecked sentinel dispatches the
edit with that character flipped to the checked sentinel and re-encoded (and
symmetrically for the checked sentinel); any other character, or an
unresolvable offset, dispatches nothing. -/
theorem claim_C7 (stateContent m : List Char) (noteId : Nat) (r : EditRange) :
    (stateContent[getOffsetAt m r.startLineNumber r.startColumn]? = some '\uE000' →
      onMouseDown stateContent noteId (some r) (some m) =
        some ⟨noteId, withCheckboxSyntax
          (stateContent.take (getOffsetAt m r.startLineNumber r.startColumn) ++
            '\uE001' ::
              stateContent.drop (getOffsetAt m r.startLineNumber r.startColumn + 1))⟩) ∧
    (stateContent[getOffsetAt m r.startLineNumber r.startColumn]? = some '\uE001' →
      onMouseDown stateContent noteId (some r) (some m) =
        some ⟨noteId, withCheckboxSyntax
          (stateContent.take (getOffsetAt m r.startLineNumber r.startColumn) ++
            '\uE000' ::
              stateContent.drop (getOffsetAt m r.startLineNumber r.startColumn + 1))⟩) ∧
    (∀ ch : Char,
      stateContent[getOffsetAt m r.startLineNumber r.startColumn]? = some ch →
      ch ≠ '\uE000' → ch ≠ '\uE001' →
      onMouseDown stateContent noteId (some r) (some m) = none) ∧
    (stateContent[getOffsetAt m r.startLineNumber r.startColumn]? = none →
      onMouseDown stateContent noteId (some r) (some m) = none) := by
  refine ⟨?_, ?_, ?_, ?_⟩
  · intro h
    simp [onMouseDown, h]
  · intro h
    have hne : stateContent[getOffsetAt m r.startLineNumber r.startColumn]? ≠
        some '\uE000' := by
      rw [h]
      decide
    simp [onMouseDown, h, hne]
  · intro ch h hne0 hne1
    simp [onMouseDown, h, hne0, hne1]
  · intro h
    simp [onMouseDown, h]

/-- Every document has at least one line. -/
lemma one_le_lineCount (s : List Char) : 1 ≤ lineCount s := by
  induction s with
  | nil => simp [lineCount]
  | cons c rest ih =>
    unfold lineCount
    split <;> omega

/-- The first line starts at offset 0. -/
lemma lineStartOffset_one (s : List Char) : lineStartOffset s 1 = 0 := by
  cases s <;> rfl

/-- Line start offsets never pass the end of the document. -/
lemma lineStartOffset_le (s : List Char) : ∀ n, lineStartOffset s n ≤ s.length := by
  induction s with
  | nil =>
    intro n
    rcases n with _ | _ | n <;> simp [lineStartOffset]
  | cons c rest ih =>
    intro n
    rcases n with _ | _ | n
    · simp [lineStartOffset]
    · simp [lineStartOffset]
    · have h1 := ih (n + 1)
      have h2 := ih (n + 2)
      show 1 + (if c = '\n' then lineStartOffset rest (n + 1)
        else lineStartOffset rest (n + 2)) ≤ (c :: rest).length
      simp only [List.length_cons]
      split <;> omega

/-- The last line's start offset plus its length is the document length. -/
lemma lineStartOffset_last (s : List Char) :
    lineStartOffset s (lineCount s) + (getLineContent s (lineCount s)).length = s.length := by
  induction s with
  | nil => rfl
  | cons c rest ih =>
    by_cases hc : c = '\n'
    · subst hc
      have h1 : 1 ≤ lineCount rest := one_le_lineCount rest
      obtain ⟨k, hk⟩ : ∃ k, lineCount rest = k + 1 := ⟨lineCount rest - 1, by omega⟩
      have hlc : lineCount ('\n' :: rest) = k + 2 := by
        have hstep : lineCount ('\n' :: rest) = 1 + lineCount rest := by
          simp [lineCount]
        omega
      rw [hlc]
      have hso : lineStartOffset ('\n' :: rest) (k + 2) =
          1 + lineStartOffset rest (k + 1) := by
        simp [lineStartOffset]
      have hgl : getLineContent ('\n' :: rest) (k + 2) = getLineContent rest (k + 1) := by
        simp [getLineContent]
      rw [hso, hgl, ← hk]
      simp only [List.length_cons]
      omega
    · have hlc : lineCount (c :: rest) = lineCount rest := by
        simp [lineCount, hc]
      rw [hlc]
      have h1 : 1 ≤ lineCount rest := one_le_lineCount rest
      by_cases h2 : lineCount rest = 1
      · rw [h2]
        rw [h2, lineStartOffset_one rest] at ih
        rw [lineStartOffset_one (c :: rest)]
        have hgl : getLineContent (c :: rest) 1 = c :: getLineContent rest 1 := by
          simp [getLineContent, hc]
        rw [hgl]
        simp only [List.length_cons]
        omega
      · obtain ⟨k, hk⟩ : ∃ k, lineCount rest = k + 2 := ⟨lineCount rest - 2, by omega⟩
        rw [hk]
        rw [hk] at ih
        have hso : lineStartOffset (c :: rest) (k + 2) =
            1 + lineStartOffset rest (k + 2) := by
          simp [lineStartOffset, hc]
        have hgl : getLineContent (c :: rest) (k + 2) = getLineContent rest (k + 2) := by
          simp [getLineContent, hc]
        rw [hso, hgl]
        simp only [List.length_cons]
        omega

/-- Past the last line, a line start offset saturates at the document
length. -/
lemma lineStartOffset_of_lineCount_lt (s : List Char) :
    ∀ n, lineCount s < n → lineStartOffset s n = s.length := by
  induction s with
  | nil =>
    intro n hn
    rcases n with _ | _ | n
    · exfalso
      simp [lineCount] at hn
    · exfalso
      simp [lineCount] at hn
    · simp [lineStartOffset]
  | cons c rest ih =>
    intro n hn
    have h1 : 1 ≤ lineCount (c :: rest) := one_le_lineCount _
    rcases n with _ | _ | n
    · exfalso
      omega
    · exfalso
      omega
    · by_cases hc : c = '\n'
      · subst hc
        have hlt : lineCount rest < n + 1 := by
          simp [lineCount] at hn
          omega
        have hso : lineStartOffset ('\n' :: rest) (n + 2) =
            1 + lineStartOffset rest (n + 1) := by
          simp [lineStartOffset]
        rw [hso, ih (n + 1) hlt]
        simp only [List.length_cons]
        omega
      · have hlt : lineCount rest < n + 2 := by
          simp [lineCount, hc] at hn
          omega
        have hso : lineStartOffset (c :: rest) (n + 2) =
            1 + lineStartOffset rest (n + 2) := by
          simp [lineStartOffset, hc]
        rw [hso, ih (n + 2) hlt]
        simp only [List.length_cons]
        omega

/-- Requesting column 0 of a line (as the autolist computation does) resolves
to the line's start offset, saturating at the document length. -/
lemma getOffsetAt_col_zero (s : List Char) (n : Nat) (hn : 1 ≤ n) :
    getOffsetAt s n 0 = lineStartOffset s n := by
  unfold getOffsetAt validatePosition
  rw [if_neg (by omega : ¬ n < 1)]
  by_cases hover : lineCount s < n
  · rw [if_pos hover]
    show lineStartOffset s (lineCount s) + (maxColumn s (lineCount s) - 1) =
      lineStartOffset s n
    rw [lineStartOffset_of_lineCount_lt s n hover]
    have h := lineStartOffset_last s
    unfold maxColumn
    omega
  · rw [if_neg hover]
    show lineStartOffset s n + (max 1 (min 0 (maxColumn s n)) - 1) = lineStartOffset s n
    simp

/-- A position already valid for the document is left alone by validation, so
its offset is the line start plus the column displacement. -/
lemma getOffsetAt_of_valid (s : List Char) (ln col : Nat) (h1 : 1 ≤ ln)
    (h2 : ln ≤ lineCount s) (h3 : 1 ≤ col) (h4 : col ≤ maxColumn s ln) :
    getOffsetAt s ln col = lineStartOffset s ln + (col - 1) := by
  unfold getOffsetAt validatePosition
  rw [if_neg (by omega : ¬ ln < 1), if_neg (by omega : ¬ lineCount s < ln)]
  show lineStartOffset s ln + (max 1 (min col (maxColumn s ln)) - 1) =
    lineStartOffset s ln + (col - 1)
  rw [Nat.min_eq_left h4, Nat.max_eq_right h3]

/-- The position reached by walking `k ≤ length` characters is valid for the
document and sits exactly `k` characters in. -/
lemma walkPos_spec (s : List Char) : ∀ k, k ≤ s.length →
    1 ≤ (walkPos s k).lineNumber ∧ (walkPos s k).lineNumber ≤ lineCount s ∧
    1 ≤ (walkPos s k).column ∧
    (walkPos s k).column ≤ maxColumn s (walkPos s k).lineNumber ∧
    lineStartOffset s (walkPos s k).lineNumber + ((walkPos s k).column - 1) = k := by
  induction s with
  | nil =>
    intro k hk
    have hk0 : k = 0 := by simpa using hk
    subst hk0
    refine ⟨le_refl 1, ?_, le_refl 1, ?_, ?_⟩
    · exact one_le_lineCount []
    · show (1 : Nat) ≤ maxColumn [] 1
      unfold maxColumn
      omega
    · show lineStartOffset [] 1 + (1 - 1) = 0
      rw [lineStartOffset_one]
  | cons c rest ih =>
    intro k hk
    rcases k with _ | j
    · have hw : walkPos (c :: rest) 0 = ⟨1, 1⟩ := rfl
      rw [hw]
      refine ⟨le_refl 1, one_le_lineCount _, le_refl 1, ?_, ?_⟩
      · show (1 : Nat) ≤ maxColumn (c :: rest) 1
        unfold maxColumn
        omega
      · show lineStartOffset (c :: rest) 1 + (1 - 1) = 0
        rw [lineStartOffset_one]
    · have hj : j ≤ rest.length := by
        simpa using hk
      obtain ⟨ih1, ih2, ih3, ih4, ih5⟩ := ih j hj
      have hw : walkPos (c :: rest) (j + 1) =
          (if c = '\n' then
            ⟨(walkPos rest j).lineNumber + 1, (walkPos rest j).column⟩
          else if (walkPos rest j).lineNumber = 1 then
            ⟨1, (walkPos rest j).column + 1⟩
          else walkPos rest j) := rfl
      by_cases hc : c = '\n'
      · subst hc
        rw [hw, if_pos rfl]
        have hlc : lineCount ('\n' :: rest) = 1 + lineCount rest := by
          simp [lineCount]
        have hgl : getLineContent ('\n' :: rest) ((walkPos rest j).lineNumber + 1) =
            getLineContent rest ((walkPos rest j).lineNumber) := by
          have hgt : ¬ ((walkPos rest j).lineNumber + 1 ≤ 1) := by omega
          simp [getLineContent, hgt]
        obtain ⟨m, hm⟩ : ∃ m, (walkPos rest j).lineNumber = m + 1 :=
          ⟨(walkPos rest j).lineNumber - 1, by omega⟩
        have hso : lineStartOffset ('\n' :: rest) ((walkPos rest j).lineNumber + 1) =
            1 + lineStartOffset rest ((walkPos rest j).lineNumber) := by
          rw [hm]
          simp [lineStartOffset]
        refine ⟨?_, ?_, ih3, ?_, ?_⟩
        · show 1 ≤ (walkPos rest j).lineNumber + 1
          omega
        · show (walkPos rest j).lineNumber + 1 ≤ lineCount ('\n' :: rest)
          omega
        · show (walkPos rest j).column ≤
            maxColumn ('\n' :: rest) ((walkPos rest j).lineNumber + 1)
          unfold maxColumn at ih4 ⊢
          rw [hgl]
          exact ih4
        · show lineStartOffset ('\n' :: rest) ((walkPos rest j).lineNumber + 1) +
            ((walkPos rest j).column - 1) = j + 1
          rw [hso]
          omega
      · rw [hw, if_neg hc]
        by_cases h1 : (walkPos rest j).lineNumber = 1
        · rw [if_pos h1]
          have hgl : getLineContent (c :: rest) 1 = c :: getLineContent rest 1 := by
            simp [getLineContent, hc]
          refine ⟨le_refl 1, one_le_lineCount _, ?_, ?_, ?_⟩
          · show 1 ≤ (walkPos rest j).column + 1
            omega
          · show (walkPos rest j).column + 1 ≤ maxColumn (c :: rest) 1
            have := ih4
            rw [h1] at this
            unfold maxColumn at this ⊢
            rw [hgl]
            simp only [List.length_cons]
            omega
          · show lineStartOffset (c :: rest) 1 + ((walkPos rest j).column + 1 - 1) = j + 1
            have := ih5
            rw [h1, lineStartOffset_one rest] at this
            rw [lineStartOffset_one]
            omega
        · rw [if_neg h1]
          have hge : 2 ≤ (walkPos rest j).lineNumber := by omega
          have hlc : lineCount (c :: rest) = lineCount rest := by
            simp [lineCount, hc]
          have hgl : getLineContent (c :: rest) ((walkPos rest j).lineNumber) =
              getLineContent rest ((walkPos rest j).lineNumber) := by
            have hgt : ¬ ((walkPos rest j).lineNumber ≤ 1) := by omega
            simp [getLineContent, hc, hgt]
          obtain ⟨m, hm⟩ : ∃ m, (walkPos rest j).lineNumber = m + 2 :=
            ⟨(walkPos rest j).lineNumber - 2, by omega⟩
          have hso : lineStartOffset (c :: rest) ((walkPos rest j).lineNumber) =
              1 + lineStartOffset rest ((walkPos rest j).lineNumber) := by
            rw [hm]
            simp [lineStartOffset, hc]
          refine ⟨ih1, ?_, ih3, ?_, ?_⟩
          · show (walkPos rest j).lineNumber ≤ lineCount (c :: rest)
            omega
          · show (walkPos rest j).column ≤
              maxColumn (c :: rest) ((walkPos rest j).lineNumber)
            unfold maxColumn at ih4 ⊢
            rw [hgl]
            exact ih4
          · show lineStartOffset (c :: rest) ((walkPos rest j).lineNumber) +
              ((walkPos rest j).column - 1) = j + 1
            rw [hso]
            omega

/-- The position the surface resolves for an offset sits exactly at that
offset clamped into the document. -/
lemma getPositionAt_roundtrip (s : List Char) (off : Nat) :
    getOffsetAt s (getPositionAt s off).lineNumber (getPositionAt s off).column =
      min off s.length := by
  obtain ⟨h1, h2, h3, h4, h5⟩ := walkPos_spec s (min off s.length) (Nat.min_le_right _ _)
  unfold getPositionAt
  rw [getOffsetAt_of_valid s _ _ h1 h2 h3 h4]
  exact h5

/-- Claim C4: whenever `componentDidUpdate` applies a persisted selection, the
positions it hands the surface correspond to the stored offsets clamped into
`[0, content.length]`; no offset beyond the content length is ever used. -/
theorem claim_C4 (text : List Char) (prevSel curSel : Nat × Nat × Dir)
    (applied : AppliedSelection)
    (h : componentDidUpdate true (some text) .full prevSel curSel = some applied) :
    ∃ ps pe : TextPos,
      applied.selStart = some ps ∧ applied.selEnd = some pe ∧
      getOffsetAt text ps.lineNumber ps.column = min curSel.1 text.length ∧
      getOffsetAt text pe.lineNumber pe.column = min curSel.2.1 text.length ∧
      min curSel.1 text.length ≤ text.length ∧
      min curSel.2.1 text.length ≤ text.length := by
  unfold componentDidUpdate at h
  split at h
  · have happ : applied =
        ⟨some (getPositionAt text curSel.1), some (getPositionAt text curSel.2.1),
          curSel.2.2⟩ := by
      exact (Option.some.inj h).symm
    subst happ
    refine ⟨getPositionAt text curSel.1, getPositionAt text curSel.2.1, rfl, rfl,
      ?_, ?_, Nat.min_le_right _ _, Nat.min_le_right _ _⟩
    · exact getPositionAt_roundtrip text curSel.1
    · exact getPositionAt_roundtrip text curSel.2.1
  · exact absurd h (by simp)

/-- Witness for C4: a persisted end offset of 10 on a 3-character document is
clamped to offset 3 when applied. -/
theorem claim_C4_witness :
    ∃ ps pe : TextPos,
      (⟨some ⟨2, 2⟩, some ⟨2, 1⟩, Dir.ltr⟩ : AppliedSelection).selStart = some ps ∧
      (⟨some ⟨2, 2⟩, some ⟨2, 1⟩, Dir.ltr⟩ : AppliedSelection).selEnd = some pe ∧
      getOffsetAt ['a', '\n', 'b'] ps.lineNumber ps.column =
        min 10 (['a', '\n', 'b'] : List Char).length ∧
      getOffsetAt ['a', '\n', 'b'] pe.lineNumber pe.column =
        min 2 (['a', '\n', 'b'] : List Char).length ∧
      min 10 (['a', '\n', 'b'] : List Char).length ≤ (['a', '\n', 'b'] : List Char).length ∧
      min 2 (['a', '\n', 'b'] : List Char).length ≤ (['a', '\n', 'b'] : List Char).length := by
  exact claim_C4 ['a', '\n', 'b'] (0, 0, .ltr) (10, 2, .ltr)
    ⟨some ⟨2, 2⟩, some ⟨2, 1⟩, .ltr⟩ (by decide)

/-- Without an autolist result the raw value is re-encoded and dispatched
with no deferred cursor. -/
lemma updateNote_of_autolist_none (value : List Char) (event : ChangeEvent)
    (h : autolist value event = none) :
    updateNote value event = ⟨withCheckboxSyntax value, none⟩ := by
  unfold updateNote
  rw [h]

/-- Undo and redo events never autolist. -/
lemma autolist_none_of_undo (value : List Char) (event : ChangeEvent)
    (h : event.isRedoing = true ∨ event.isUndoing = true) :
    autolist value event = none := by
  unfold autolist
  rcases h with h | h <;> simp [h]

/-- Without a bare-newline edit operation nothing autolists. -/
lemma autolist_none_of_find_none (value : List Char) (event : ChangeEvent)
    (h : event.changes.find? (fun c => bareNewlineText c.text) = none) :
    autolist value event = none := by
  unfold autolist
  split
  · rfl
  · simp [h]

/-- A zero line number or a multi-line edit range never autolists. -/
lemma autolist_none_of_line_guard (value : List Char) (event : ChangeEvent)
    (change : EditChange)
    (hfind : event.changes.find? (fun c => bareNewlineText c.text) = some change)
    (hguard : change.range.startLineNumber = 0 ∨
      change.range.startLineNumber ≠ change.range.endLineNumber) :
    autolist value event = none := by
  unfold autolist
  split
  · rfl
  · simp only [hfind]
    rw [if_pos hguard]

/-- Without a list marker on the previous line nothing autolists. -/
lemma autolist_none_of_no_bullet (value : List Char) (event : ChangeEvent)
    (change : EditChange)
    (hfind : event.changes.find? (fun c => bareNewlineText c.text) = some change)
    (hbul : listBulletMatch (getLineContent value change.range.startLineNumber) = none) :
    autolist value event = none := by
  unfold autolist
  split
  · rfl
  · simp only [hfind]
    split
    · rfl
    · simp [hbul]

/-- A non-blank new line never autolists. -/
lemma autolist_none_of_not_blank (value : List Char) (event : ChangeEvent)
    (change : EditChange)
    (hfind : event.changes.find? (fun c => bareNewlineText c.text) = some change)
    (hblank : (getLineContent value (change.range.startLineNumber + 1)).all
      jsWhitespace = false) :
    autolist value event = none := by
  unfold autolist
  split
  · rfl
  · simp only [hfind]
    split
    · rfl
    · cases hbul : listBulletMatch (getLineContent value change.range.startLineNumber) with
      | none => simp [hbul]
      | some bullet => simp [hbul, hblank]

/-- The autolist result when every condition holds: the text up to the start
of the new line, the previous line's whitespace-bullet-whitespace head, the
line terminator and the remainder from the following line's start, with the
cursor scheduled right after the inserted head. -/
lemma autolist_continues (value : List Char) (event : ChangeEvent) (change : EditChange)
    (bullet : List Char)
    (hr : event.isRedoing = false) (hu : event.isUndoing = false)
    (hfind : event.changes.find? (fun c => bareNewlineText c.text) = some change)
    (h0 : change.range.startLineNumber ≠ 0)
    (hsame : change.range.startLineNumber = change.range.endLineNumber)
    (hbul : listBulletMatch (getLineContent value change.range.startLineNumber) =
      some bullet)
    (hblank : (getLineContent value (change.range.startLineNumber + 1)).all
      jsWhitespace = true) :
    autolist value event =
      some (value.take (lineStartOffset value (change.range.startLineNumber + 1)) ++
          bullet ++ '\n' ::
            value.drop (lineStartOffset value (change.range.startLineNumber + 2)),
        ⟨change.range.startLineNumber + 1, bullet.length + 1⟩) := by
  unfold autolist
  rw [hr, hu]
  simp only [Bool.or_self, Bool.false_eq_true, if_false, hfind]
  rw [if_neg (by
    rintro (h | h)
    · exact h0 h
    · exact h hsame)]
  simp only [hbul, hblank]
  rw [getOffsetAt_col_zero value (change.range.startLineNumber + 1) (by omega),
    getOffsetAt_col_zero value (change.range.startLineNumber + 2) (by omega)]
  simp

/-- The continuation content is never empty, so the `|| value` fallback of
`updateNote` does not fire on it. -/
lemma updateNote_continues (value : List Char) (event : ChangeEvent) (change : EditChange)
    (bullet : List Char)
    (hr : event.isRedoing = false) (hu : event.isUndoing = false)
    (hfind : event.changes.find? (fun c => bareNewlineText c.text) = some change)
    (h0 : change.range.startLineNumber ≠ 0)
    (hsame : change.range.startLineNumber = change.range.endLineNumber)
    (hbul : listBulletMatch (getLineContent value change.range.startLineNumber) =
      some bullet)
    (hblank : (getLineContent value (change.range.startLineNumber + 1)).all
      jsWhitespace = true) :
    updateNote value event =
      ⟨withCheckboxSyntax
          (value.take (lineStartOffset value (change.range.startLineNumber + 1)) ++
            bullet ++ '\n' ::
              value.drop (lineStartOffset value (change.range.startLineNumber + 2))),
        some ⟨change.range.startLineNumber + 1, bullet.length + 1⟩⟩ := by
  unfold updateNote
  rw [autolist_continues value event change bullet hr hu hfind h0 hsame hbul hblank]
  simp

/-- Claim C1 (counterexample): the scan over edit operations filters only on
the inserted text, not on the range.  With a first operation inserting a bare
newline over a multi-line range and a second operation satisfying every
condition of the claim (single-newline text, single-line range, marker on the
previous line, blank new line), the handler dispatches the raw re-encoded
value instead of the continued content the claim requires. -/
theorem claim_C1_counterexample :
    (⟨['\n'], ⟨1, 4, 1, 4⟩⟩ : EditChange) ∈
      (⟨[⟨['\n'], ⟨1, 1, 2, 1⟩⟩, ⟨['\n'], ⟨1, 4, 1, 4⟩⟩], false, false⟩ :
        ChangeEvent).changes ∧
    bareNewlineText ['\n'] = true ∧
    (⟨['\n'], ⟨1, 4, 1, 4⟩⟩ : EditChange).range.startLineNumber = 1 ∧
    (⟨['\n'], ⟨1, 4, 1, 4⟩⟩ : EditChange).range.endLineNumber = 1 ∧
    listBulletMatch (getLineContent ['-', ' ', 'a', '\n', '\n'] 1) = some ['-', ' '] ∧
    (getLineContent ['-', ' ', 'a', '\n', '\n'] 2).all jsWhitespace = true ∧
    (updateNote ['-', ' ', 'a', '\n', '\n']
        ⟨[⟨['\n'], ⟨1, 1, 2, 1⟩⟩, ⟨['\n'], ⟨1, 4, 1, 4⟩⟩], false, false⟩).dispatched =
      withCheckboxSyntax ['-', ' ', 'a', '\n', '\n'] ∧
    (updateNote ['-', ' ', 'a', '\n', '\n']
        ⟨[⟨['\n'], ⟨1, 1, 2, 1⟩⟩, ⟨['\n'], ⟨1, 4, 1, 4⟩⟩], false, false⟩).dispatched ≠
      withCheckboxSyntax
        ((['-', ' ', 'a', '\n', '\n'] : List Char).take
            (lineStartOffset ['-', ' ', 'a', '\n', '\n'] 2) ++
          ['-', ' '] ++ '\n' ::
            (['-', ' ', 'a', '\n', '\n'] : List Char).drop
              (lineStartOffset ['-', ' ', 'a', '\n', '\n'] 3)) := by
  decide

/-- Claim C1 (amended): the content-change handler scans for the first edit
operation whose inserted text starts with a newline and is whitespace-only;
when that operation's range starts and ends on one (nonzero) line, the
previous line carries a list marker and the new line is blank, the dispatched
content is the text up to the new line's start, the marker head, the line
terminator and the remainder, with the cursor placement after the head
deferred; in every other case the raw value passes through; in all cases the
output is re-encoded by the Checkbox Codec. -/
theorem claim_C1_amended (value : List Char) (event : ChangeEvent) :
    (∀ change bullet,
      event.isRedoing = false → event.isUndoing = false →
      event.changes.find? (fun c => bareNewlineText c.text) = some change →
      change.range.startLineNumber ≠ 0 →
      change.range.startLineNumber = change.range.endLineNumber →
      listBulletMatch (getLineContent value change.range.startLineNumber) =
        some bullet →
      (getLineContent value (change.range.startLineNumber + 1)).all
        jsWhitespace = true →
      updateNote value event =
        ⟨withCheckboxSyntax
            (value.take (lineStartOffset value (change.range.startLineNumber + 1)) ++
              bullet ++ '\n' ::
                value.drop (lineStartOffset value (change.range.startLineNumber + 2))),
          some ⟨change.range.startLineNumber + 1, bullet.length + 1⟩⟩) ∧
    ((event.isRedoing = true ∨ event.isUndoing = true) →
      updateNote value event = ⟨withCheckboxSyntax value, none⟩) ∧
    (event.changes.find? (fun c => bareNewlineText c.text) = none →
      updateNote value event = ⟨withCheckboxSyntax value, none⟩) ∧
    (∀ change,
      event.changes.find? (fun c => bareNewlineText c.text) = some change →
      (change.range.startLineNumber = 0 ∨
        change.range.startLineNumber ≠ change.range.endLineNumber ∨
        listBulletMatch (getLineContent value change.range.startLineNumber) = none ∨
        (getLineContent value (change.range.startLineNumber + 1)).all
          jsWhitespace = false) →
      updateNote value event = ⟨withCheckboxSyntax value, none⟩) := by
  refine ⟨?_, ?_, ?_, ?_⟩
  · intro change bullet hr hu hfind h0 hsame hbul hblank
    exact updateNote_continues value event change bullet hr hu hfind h0 hsame hbul hblank
  · intro h
    exact updateNote_of_autolist_none _ _ (autolist_none_of_undo _ _ h)
  · intro h
    exact updateNote_of_autolist_none _ _ (autolist_none_of_find_none _ _ h)
  · intro change hfind h
    rcases h with h | h | h | h
    · exact updateNote_of_autolist_none _ _
        (autolist_none_of_line_guard _ _ change hfind (Or.inl h))
    · exact updateNote_of_autolist_none _ _
        (autolist_none_of_line_guard _ _ change hfind (Or.inr h))
    · exact updateNote_of_autolist_none _ _
        (autolist_none_of_no_bullet _ _ change hfind h)
    · exact updateNote_of_autolist_none _ _
        (autolist_none_of_not_blank _ _ change hfind h)

/-- Witness for C1: a bare newline after a starred item continues the list. -/
theorem claim_C1_witness :
    updateNote ['*', ' ', 'x', '\n', '\n']
        ⟨[⟨['\n'], ⟨1, 4, 1, 4⟩⟩], false, false⟩ =
      ⟨['*', ' ', 'x', '\n', '*', ' ', '\n'], some ⟨2, 3⟩⟩ := by
  have h := (claim_C1_amended ['*', ' ', 'x', '\n', '\n']
      ⟨[⟨['\n'], ⟨1, 4, 1, 4⟩⟩], false, false⟩).1
      ⟨['\n'], ⟨1, 4, 1, 4⟩⟩ ['*', ' '] rfl rfl (by decide) (by decide) rfl
      (by decide) (by decide)
  exact h.trans (by decide)

/-- Claim C9 (counterexample): line numbers of the surface are 1-based, so
the first line of the document is line 1, and a bare newline whose edit
range sits on line 1 does trigger the continuation (the `lineNumber === 0`
guard never fires): the dispatched content is the continued list, not the
raw value the claim requires. -/
theorem claim_C9_counterexample :
    (⟨['\n'], ⟨1, 7, 1, 7⟩⟩ : EditChange).range.startLineNumber = 1 ∧
    lineCount ['-', ' ', 'i', 't', 'e', 'm', '\n'] = 2 ∧
    (updateNote ['-', ' ', 'i', 't', 'e', 'm', '\n']
        ⟨[⟨['\n'], ⟨1, 7, 1, 7⟩⟩], false, false⟩).dispatched =
      ['-', ' ', 'i', 't', 'e', 'm', '\n', '-', ' ', '\n'] ∧
    (updateNote ['-', ' ', 'i', 't', 'e', 'm', '\n']
        ⟨[⟨['\n'], ⟨1, 7, 1, 7⟩⟩], false, false⟩).dispatched ≠
      withCheckboxSyntax ['-', ' ', 'i', 't', 'e', 'm', '\n'] := by
  decide

/-- Claim C9 (amended): the no-op guard of the continuation fires only for a
reported start line number of 0 — which cannot occur with the surface's
1-based line numbering — or a multi-line range; a bare newline on line 1
inherits line 1's marker as for any other line. -/
theorem claim_C9_amended (value : List Char) (event : ChangeEvent) :
    (∀ change,
      event.changes.find? (fun c => bareNewlineText c.text) = some change →
      change.range.startLineNumber = 0 →
      updateNote value event = ⟨withCheckboxSyntax value, none⟩) ∧
    (∀ change bullet,
      event.isRedoing = false → event.isUndoing = false →
      event.changes.find? (fun c => bareNewlineText c.text) = some change →
      change.range.startLineNumber = 1 → change.range.endLineNumber = 1 →
      listBulletMatch (getLineContent value 1) = some bullet →
      (getLineContent value 2).all jsWhitespace = true →
      updateNote value event =
        ⟨withCheckboxSyntax
            (value.take (lineStartOffset value 2) ++ bullet ++ '\n' ::
              value.drop (lineStartOffset value 3)),
          some ⟨2, bullet.length + 1⟩⟩) := by
  constructor
  · intro change hfind h0
    exact updateNote_of_autolist_none _ _
      (autolist_none_of_line_guard _ _ change hfind (Or.inl h0))
  · intro change bullet hr hu hfind h1 h2 hbul hblank
    have h := updateNote_continues value event change bullet hr hu hfind
      (by omega) (h1.trans h2.symm) (by rw [h1]; exact hbul) (by rw [h1]; exact hblank)
    rw [h1] at h
    exact h

/-- Witness for C9: a bare newline on the very first line continues its
list marker. -/
theorem claim_C9_witness :
    updateNote ['-', ' ', 'i', 't', 'e', 'm', '\n']
        ⟨[⟨['\n'], ⟨1, 7, 1, 7⟩⟩], false, false⟩ =
      ⟨['-', ' ', 'i', 't', 'e', 'm', '\n', '-', ' ', '\n'], some ⟨2, 3⟩⟩ := by
  have h := (claim_C9_amended ['-', ' ', 'i', 't', 'e', 'm', '\n']
      ⟨[⟨['\n'], ⟨1, 7, 1, 7⟩⟩], false, false⟩).2
      ⟨['\n'], ⟨1, 7, 1, 7⟩⟩ ['-', ' '] rfl rfl (by decide) rfl rfl
      (by decide) (by decide)
  exact h.trans (by decide)

/-- Witness for C7 at the spec's checkbox example. -/
theorem claim_C7_witness :
    onMouseDown ['-', ' ', '\uE000', ' ', 't', 'a', 's', 'k', '\n'] 7
        (some ⟨1, 3, 1, 3⟩) (some ['-', ' ', '\uE000', ' ', 't', 'a', 's', 'k', '\n']) =
      some ⟨7, ['-', ' ', '[', 'x', ']', ' ', 't', 'a', 's', 'k', '\n']⟩ := by
  have h := (claim_C7 ['-', ' ', '\uE000', ' ', 't', 'a', 's', 'k', '\n']
      ['-', ' ', '\uE000', ' ', 't', 'a', 's', 'k', '\n'] 7 ⟨1, 3, 1, 3⟩).1 (by decide)
  exact h.trans (by decide)

end Simplenote
